import Mathlib

/-!
Verification of the quirc finder-pattern detection pipeline as ported to FPGA
kernels in `qrcodes.hpp` / `quirc.hpp` (QR-code reference design).

The C++ functions `otsu`, `pixels_setup`, `region_code`, `test_capstone` and
`finder_scan` are shallowly embedded below.  Machine integers are modelled as
`Nat` (for the unsigned quantities) and `Int` (for the C `int` quantities);
the `float` accumulators of `otsu` are modelled as exact rationals `ℚ`, and
every concrete evaluation used below involves only small integers and halves
that are exactly representable in IEEE single precision, so the rational model
agrees with the C float computation on those inputs.  Mutation through
pointers is modelled by explicit state passing.
-/

namespace Quirc

/-- Constant `QUIRC_PIXEL_WHITE` from quirc.hpp. -/
def QUIRC_PIXEL_WHITE : Nat := 0

/-- Constant `QUIRC_PIXEL_BLACK` from quirc.hpp. -/
def QUIRC_PIXEL_BLACK : Nat := 1

/-- Constant `QUIRC_PIXEL_REGION` from quirc.hpp: pixel values `≥ 2` are region ids. -/
def QUIRC_PIXEL_REGION : Nat := 2

/-- Constant `QUIRC_MAX_REGIONS` from quirc.hpp (254); compared against the `int`
region counter, hence an `Int` here. -/
def QUIRC_MAX_REGIONS : Int := 254

/-- Record `struct quirc_region` from quirc.hpp: seed point, pixel count, and
capstone back-reference (all C `int`s).  `memset(box, 0, sizeof(*box))`
followed by the assignments in `region_code` produces `⟨x, y, 0, -1⟩`. -/
structure QuircRegion where
  seed_x : Int
  seed_y : Int
  count : Int
  capstone : Int
deriving DecidableEq, Repr

/-- The mutable detection state threaded through the kernel functions:
the pixel grid (`pixels_ptr`, a flat `y*w + x` indexed array of `uint8_t`
values modelled as `Nat`), the region counter `num_regions` (C `int`), the
region table `regions`, and the capstone counter `num_capstones` from
`struct quirc` (no live code path ever touches it, which is exactly what the
frame theorems below record). -/
structure QuircState where
  pixels : Nat → Nat
  num_regions : Int
  regions : Nat → QuircRegion
  num_capstones : Int

/-- Function `pixels_setup<w,h>` from qrcodes.hpp: every pixel becomes
`QUIRC_PIXEL_BLACK` when `image[i] < threshold`, else `QUIRC_PIXEL_WHITE`.
The flat image buffer is modelled as a list of byte values. -/
def pixels_setup (image : List Nat) (threshold : Nat) : List Nat :=
  image.map (fun p => if p < threshold then QUIRC_PIXEL_BLACK else QUIRC_PIXEL_WHITE)

/-- Function `region_code<w,h>` from qrcodes.hpp.  Returns the region id (or `-1`)
together with the state after the call.  The coordinates are C `int`s; the
flat index `y*w + x` is only read after the bounds check, where it is
nonnegative.  Note that the source never writes to `pixels_ptr`: the
`flood_fill_seed` call is commented out. -/
def region_code (w h : Int) (st : QuircState) (x y : Int) : Int × QuircState :=
  if x < 0 ∨ y < 0 ∨ w ≤ x ∨ h ≤ y then
    (-1, st)
  else
    let pixel := st.pixels (y * w + x).toNat
    if QUIRC_PIXEL_REGION ≤ pixel then
      ((pixel : Int), st)
    else if pixel = QUIRC_PIXEL_WHITE then
      (-1, st)
    else if QUIRC_MAX_REGIONS ≤ st.num_regions then
      (-1, st)
    else
      (st.num_regions,
        { st with
          num_regions := st.num_regions + 1,
          regions := Function.update st.regions st.num_regions.toNat
            ⟨x, y, 0, -1⟩ })

/-- Function `test_capstone<w,h>` from qrcodes.hpp: resolves the three probe points
(ring-right, stone, ring-left) left of column `x` by cumulative run-length
sums and discards the results — everything after the three `region_code`
calls is commented out in the source.  `x` and the window entries are C
`unsigned int`s whose differences are converted to the `int` parameter of
`region_code`; this is modelled by exact `Int` subtraction. -/
def test_capstone (w h : Int) (st : QuircState) (x y : Int) (pb : Fin 5 → Nat) :
    QuircState :=
  let st1 := (region_code w h st (x - (pb 4 : Int)) y).2
  let st2 := (region_code w h st1 (x - (pb 4 : Int) - (pb 3 : Int) - (pb 2 : Int)) y).2
  let st3 := (region_code w h st2
    (x - (pb 4 : Int) - (pb 3 : Int) - (pb 2 : Int) - (pb 1 : Int) - (pb 0 : Int)) y).2
  st3

/-- The `check` array `{1, 1, 3, 1, 1}` from `finder_scan`. -/
def capstoneCheck : Fin 5 → Nat := ![1, 1, 3, 1, 1]

/-- Quantity `avg = (pb[0] + pb[1] + pb[3] + pb[4]) * scale / 4` from `finder_scan`
(`scale = 16`); index 2 (the stone) is excluded, exactly as in the source. -/
def windowAvg (pb : Fin 5 → Nat) : Nat :=
  (pb 0 + pb 1 + pb 3 + pb 4) * 16 / 4

/-- Quantity `err = avg * 3 / 4` from `finder_scan`. -/
def windowErr (pb : Fin 5 → Nat) : Nat :=
  windowAvg pb * 3 / 4

/-- The `ok` flag computation of `finder_scan`: a loop over the five window
positions clearing `ok` whenever `pb[i]*scale` leaves the tolerance band.
`check[i]*avg - err` is C unsigned subtraction, but `err = avg*3/4 ≤ avg ≤
check[i]*avg` (see `windowErr_le_check_mul_avg`), so it never wraps and `Nat`
truncated subtraction is exact. -/
def windowOkLoop (pb : Fin 5 → Nat) : Bool :=
  let avg := windowAvg pb
  let err := windowErr pb
  (List.finRange 5).foldl
    (fun ok i =>
      if pb i * 16 < capstoneCheck i * avg - err ∨
          capstoneCheck i * avg + err < pb i * 16 then false else ok)
    true

/-- The spec-side acceptance predicate for claim C4: every window position
lies inside `[check[i]*avg - err, check[i]*avg + err]`. -/
def windowAccepted (pb : Fin 5 → Nat) : Prop :=
  ∀ i : Fin 5,
    capstoneCheck i * windowAvg pb - windowErr pb ≤ pb i * 16 ∧
    pb i * 16 ≤ capstoneCheck i * windowAvg pb + windowErr pb

instance (pb : Fin 5 → Nat) : Decidable (windowAccepted pb) := by
  unfold windowAccepted; infer_instance

/-- The left shift of the run-length window: `memmove(pb, pb + 1, 4)` followed
by `pb[4] = run_length`. -/
def pbShift (pb : Fin 5 → Nat) (run_length : Nat) : Fin 5 → Nat :=
  fun i => if h : (i : Nat) + 1 < 5 then pb ⟨(i : Nat) + 1, h⟩ else run_length

/-- The per-row scanner state of `finder_scan`: the detection state mutated by
`test_capstone`, the locals `last_color`, `run_length`, `run_count`, the
window `pb`, and — as pure instrumentation for the specification — the list
`events` of `(x, [pb 0, …, pb 4])` at which `test_capstone` has been invoked. -/
structure ScanState where
  st : QuircState
  last_color : Nat
  run_length : Nat
  run_count : Nat
  pb : Fin 5 → Nat
  events : List (Nat × List Nat)

/-- One iteration of the column loop of `finder_scan<w,h>` at column `x`:
on a colour transition shift the window, record the ended run, and when the
new colour is WHITE with at least 5 runs seen, run the ratio test and invoke
`test_capstone` on success.  `run_length` is incremented and `last_color`
updated at the end of every iteration, as in the source. -/
def finderStep (w h y : Nat) (s : ScanState) (x : Nat) : ScanState :=
  let color : Nat := if s.st.pixels (y * w + x) = 0 then 0 else 1
  if x ≠ 0 ∧ color ≠ s.last_color then
    let pb' := pbShift s.pb s.run_length
    let run_count' := s.run_count + 1
    if color = 0 ∧ 5 ≤ run_count' ∧ windowOkLoop pb' then
      { st := test_capstone (w : Int) (h : Int) s.st (x : Int) (y : Int) pb',
        last_color := color, run_length := 0 + 1, run_count := run_count',
        pb := pb',
        events := s.events ++ [(x, [pb' 0, pb' 1, pb' 2, pb' 3, pb' 4])] }
    else
      { st := s.st, last_color := color, run_length := 0 + 1,
        run_count := run_count', pb := pb', events := s.events }
  else
    { s with run_length := s.run_length + 1, last_color := color }

/-- The initial scanner state of `finder_scan`: `last_color = 0`,
`run_length = 0`, `run_count = 0`, `pb` zeroed by `memset`. -/
def scanInit (st : QuircState) : ScanState :=
  ⟨st, 0, 0, 0, fun _ => 0, []⟩

/-- Function `finder_scan<w,h>` over row `y`: fold the column loop over `x = 0..w-1`. -/
def finder_scan (w h : Nat) (st : QuircState) (y : Nat) : ScanState :=
  (List.range w).foldl (finderStep w h y) (scanInit st)

/-- The 256-bin histogram of `otsu<w,h>`: `histogram[image_ptr[i]]++` over the
flat image buffer, i.e. the number of occurrences of value `v`. -/
def hist (image : List Nat) (v : Nat) : Nat := image.count v

/-- Quantity `sum = Σ i·histogram[i]` over the 256 bins, the global weighted intensity
sum of `otsu` (a `float` accumulator, modelled exactly in `ℚ`). -/
def otsuSum (image : List Nat) : ℚ :=
  ((List.range 256).map (fun (i : Nat) => (i : ℚ) * (hist image i : ℚ))).sum

/-- The loop state of the candidate-threshold loop of `otsu`: the 3-element
sliding accumulator `sumB`, the background count `q1`, the running maximum
`max`, the tracked `threshold`, and a flag recording that the `break` on
`q2 == 0` has fired (after which no further iteration has any effect). -/
structure OtsuState where
  sumB0 : ℚ
  sumB1 : ℚ
  sumB2 : ℚ
  q1 : Nat
  max : ℚ
  threshold : Nat
  done : Bool

/-- The initial loop state of `otsu`: `sumB = {0,0,0}`, `q1 = 0`, `max = 0`,
`threshold = 0`. -/
def otsuInit : OtsuState := ⟨0, 0, 0, 0, 0, 0, false⟩

/-- The class-mean and between-class-variance expression of the `otsu` loop
body: `m1 = runningSum/q1`, `m2 = (sum - runningSum)/q2`,
`variance = (m1-m2)²·q1·q2`. -/
def otsuVarExpr (image : List Nat) (runningSum : ℚ) (q1 q2 : Nat) : ℚ :=
  let m1 := runningSum / (q1 : ℚ)
  let m2 := (otsuSum image - runningSum) / (q2 : ℚ)
  let m1m2 := m1 - m2
  m1m2 * m1m2 * (q1 : ℚ) * (q2 : ℚ)

/-- One iteration of the candidate-threshold loop of `otsu` at candidate `i`:
`q1 += histogram[i]`; `continue` when `q1 == 0`; `break` when
`q2 = numPixels - q1 == 0` (unsigned, here `Nat` truncated subtraction —
`q1` never exceeds `numPixels`); otherwise shift the `sumB` accumulator,
compute the class means and the between-class variance, and update
`threshold`/`max` when `variance >= max`. -/
def otsuStep (image : List Nat) (s : OtsuState) (i : Nat) : OtsuState :=
  if s.done then s
  else
    let q1 := s.q1 + hist image i
    if q1 = 0 then { s with q1 := q1 }
    else
      let q2 := image.length - q1
      if q2 = 0 then { s with q1 := q1, done := true }
      else
        let tmp := s.sumB0 + (i : ℚ) * (hist image i : ℚ)
        let b0 := s.sumB1
        let b1 := s.sumB2
        let b2 := tmp
        let runningSum := b0 + b1 + b2
        let variance := otsuVarExpr image runningSum q1 q2
        if s.max ≤ variance then
          ⟨b0, b1, b2, q1, variance, i, false⟩
        else
          ⟨b0, b1, b2, q1, s.max, s.threshold, false⟩

/-- The loop state of `otsu` after the candidates `0, …, n-1` have been
processed. -/
def otsuStateAfter (image : List Nat) (n : Nat) : OtsuState :=
  (List.range n).foldl (otsuStep image) otsuInit

/-- Function `otsu<w,h>`: the threshold tracked after all 256 candidates. -/
def otsu (image : List Nat) : Nat :=
  (otsuStateAfter image 256).threshold

/-- Spec-side cumulative background count: `q1B image n = Σ_{j<n} hist j`,
so the value of `q1` inside iteration `i` is `q1B image (i+1)`. -/
def q1B (image : List Nat) (n : Nat) : Nat :=
  ((List.range n).map (hist image)).sum

/-- Spec-side cumulative weighted sum `Σ_{j<n} j·hist j` (the generic Otsu
running sum). -/
def sB (image : List Nat) (n : Nat) : ℚ :=
  ((List.range n).map (fun (j : Nat) => (j : ℚ) * (hist image j : ℚ))).sum

/-- Candidate `i` is *valid* (neither skipped by the `q1 == 0` `continue` nor
cut off by the `q2 == 0` `break`): the background count through `i` is
positive and below the pixel count. -/
def otsuValid (image : List Nat) (i : Nat) : Prop :=
  0 < q1B image (i + 1) ∧ q1B image (i + 1) < image.length

instance (image : List Nat) (i : Nat) : Decidable (otsuValid image i) := by
  unfold otsuValid; infer_instance

/-- The between-class variance computed by `otsu` at a valid candidate `i`,
written against the cumulative sums: `m1 = S/q1`, `m2 = (sum - S)/q2`,
`variance = (m1-m2)²·q1·q2` with `S = Σ_{j≤i} j·hist j`. -/
def otsuVariance (image : List Nat) (i : Nat) : ℚ :=
  otsuVarExpr image (sB image (i + 1)) (q1B image (i + 1))
    (image.length - q1B image (i + 1))

/-- Specification of the `max`/`threshold` pair tracked by the `otsu` loop
after the candidates below `n` have been processed: if no candidate was valid
both are still `0`; otherwise `t` is a valid candidate attaining the maximal
variance `m`, every valid candidate is bounded by `m`, and every valid
candidate *after* `t` has strictly smaller variance (i.e. `t` is the last
maximiser — the `variance >= max` comparison updates on ties). -/
def ThreshSpec (image : List Nat) (n : Nat) (m : ℚ) (t : Nat) : Prop :=
  ((∀ j, j < n → ¬ otsuValid image j) → m = 0 ∧ t = 0) ∧
  ((∃ j, j < n ∧ otsuValid image j) →
    t < n ∧ otsuValid image t ∧ otsuVariance image t = m ∧
    (∀ j, j < n → otsuValid image j → otsuVariance image j ≤ m) ∧
    (∀ j, j < n → otsuValid image j → t < j → otsuVariance image j < m))

/-- A concrete 3×1 detection state used to exercise the non-allocating cases
of `region_code`: pixel `(0,0)` is WHITE, pixel `(1,0)` is BLACK, pixel
`(2,0)` carries the region label `5`, and the region counter sits at the
capacity 254. -/
def mixedState : QuircState :=
  ⟨fun i => if i = 0 then 0 else if i = 1 then 1 else 5,
   254, fun _ => ⟨0, 0, 0, 0⟩, 0⟩

/-- A concrete all-BLACK detection state with an empty region table. -/
def blackState : QuircState :=
  ⟨fun _ => QUIRC_PIXEL_BLACK, 0, fun _ => ⟨0, 0, 0, 0⟩, 0⟩

/-- Iterated allocation on a 255×1 all-BLACK grid: `allocCapState k` is the
state after `region_code` has been asked about columns `0, …, k-1`.  Since
the grid is never relabelled, every query is a fresh allocation attempt. -/
def allocCapState : Nat → QuircState
  | 0 => blackState
  | k + 1 => (region_code 255 1 (allocCapState k) (k : Int) 0).2

/-- The synthetic 90-pixel row of claim C8: run lengths
`10, 10, 10, 30, 10, 10, 10` starting with WHITE and alternating. -/
def row90 : Nat → Nat := fun i =>
  if i < 10 then 0
  else if i < 20 then 1
  else if i < 30 then 0
  else if i < 60 then 1
  else if i < 70 then 0
  else if i < 80 then 1
  else 0

/-- The detection state holding the synthetic row of claim C8. -/
def c8State : QuircState := ⟨row90, 0, fun _ => ⟨0, 0, 0, 0⟩, 0⟩

/-- A concrete mid-scan scanner state used to witness the window acceptance
rule: the previous colour was BLACK, the ending run has length 10, five runs
have already been counted, and the window is about to become
`[10, 10, 30, 10, 10]`. -/
def scanCand : ScanState :=
  ⟨⟨fun _ => 0, 0, fun _ => ⟨0, 0, 0, 0⟩, 0⟩, 1, 10, 5, ![99, 10, 10, 30, 10], []⟩

/-! ### Case lemmas for `region_code` -/

/-- Out-of-bounds coordinates: `region_code` returns `-1` and leaves the
state untouched. -/
lemma region_code_oob {w h x y : Int} (st : QuircState)
    (hoob : x < 0 ∨ y < 0 ∨ w ≤ x ∨ h ≤ y) :
    region_code w h st x y = (-1, st) := by
  unfold region_code
  rw [if_pos hoob]

/-- An already-labelled pixel (value `≥ QUIRC_PIXEL_REGION`): `region_code`
returns the label and leaves the state untouched. -/
lemma region_code_labeled {w h x y : Int} (st : QuircState)
    (hin : ¬(x < 0 ∨ y < 0 ∨ w ≤ x ∨ h ≤ y))
    (hreg : QUIRC_PIXEL_REGION ≤ st.pixels (y * w + x).toNat) :
    region_code w h st x y = ((st.pixels (y * w + x).toNat : Int), st) := by
  simp only [region_code, if_neg hin, if_pos hreg]

/-- A WHITE pixel: `region_code` returns `-1` and leaves the state
untouched. -/
lemma region_code_white {w h x y : Int} (st : QuircState)
    (hin : ¬(x < 0 ∨ y < 0 ∨ w ≤ x ∨ h ≤ y))
    (hw : st.pixels (y * w + x).toNat = QUIRC_PIXEL_WHITE) :
    region_code w h st x y = (-1, st) := by
  simp [region_code, hin, hw, QUIRC_PIXEL_WHITE, QUIRC_PIXEL_REGION]

/-- A BLACK pixel with the region table at capacity: `region_code` returns
`-1` and leaves the state untouched. -/
lemma region_code_full {w h x y : Int} (st : QuircState)
    (hin : ¬(x < 0 ∨ y < 0 ∨ w ≤ x ∨ h ≤ y))
    (hb : st.pixels (y * w + x).toNat = QUIRC_PIXEL_BLACK)
    (hfull : QUIRC_MAX_REGIONS ≤ st.num_regions) :
    region_code w h st x y = (-1, st) := by
  simp [region_code, hin, hb, hfull, QUIRC_PIXEL_WHITE, QUIRC_PIXEL_REGION,
    QUIRC_PIXEL_BLACK]

/-- A BLACK pixel with room in the region table: `region_code` allocates the
next sequential id. -/
lemma region_code_alloc_eq {w h x y : Int} (st : QuircState)
    (hin : ¬(x < 0 ∨ y < 0 ∨ w ≤ x ∨ h ≤ y))
    (hb : st.pixels (y * w + x).toNat = QUIRC_PIXEL_BLACK)
    (hlt : st.num_regions < QUIRC_MAX_REGIONS) :
    region_code w h st x y =
      (st.num_regions,
        { st with
          num_regions := st.num_regions + 1,
          regions := Function.update st.regions st.num_regions.toNat
            ⟨x, y, 0, -1⟩ }) := by
  simp [region_code, hin, hb, not_le.mpr hlt, QUIRC_PIXEL_WHITE,
    QUIRC_PIXEL_REGION, QUIRC_PIXEL_BLACK]

/-- Every call to `region_code` either leaves the state untouched or performs
exactly one allocation at the current counter. -/
lemma region_code_snd_cases (w h : Int) (st : QuircState) (x y : Int) :
    (region_code w h st x y).2 = st ∨
    (st.num_regions < QUIRC_MAX_REGIONS ∧
      (region_code w h st x y).2 =
        { st with
          num_regions := st.num_regions + 1,
          regions := Function.update st.regions st.num_regions.toNat
            ⟨x, y, 0, -1⟩ }) := by
  by_cases hin : x < 0 ∨ y < 0 ∨ w ≤ x ∨ h ≤ y
  · rw [region_code_oob st hin]; exact Or.inl rfl
  · by_cases hreg : QUIRC_PIXEL_REGION ≤ st.pixels (y * w + x).toNat
    · rw [region_code_labeled st hin hreg]; exact Or.inl rfl
    · by_cases hw : st.pixels (y * w + x).toNat = QUIRC_PIXEL_WHITE
      · rw [region_code_white st hin hw]; exact Or.inl rfl
      · have hb : st.pixels (y * w + x).toNat = QUIRC_PIXEL_BLACK := by
          unfold QUIRC_PIXEL_REGION at hreg
          unfold QUIRC_PIXEL_WHITE at hw
          unfold QUIRC_PIXEL_BLACK
          omega
        by_cases hfull : QUIRC_MAX_REGIONS ≤ st.num_regions
        · rw [region_code_full st hin hb hfull]; exact Or.inl rfl
        · rw [region_code_alloc_eq st hin hb (lt_of_not_le hfull)]
          exact Or.inr ⟨lt_of_not_le hfull, rfl⟩

/-- Function `region_code` never writes to the pixel grid (the
`flood_fill_seed` call of the reference library is commented out in the
source). -/
lemma region_code_pixels (w h : Int) (st : QuircState) (x y : Int) :
    (region_code w h st x y).2.pixels = st.pixels := by
  rcases region_code_snd_cases w h st x y with hc | ⟨_, hc⟩ <;> rw [hc]

/-- Function `region_code` never touches the capstone counter. -/
lemma region_code_num_capstones (w h : Int) (st : QuircState) (x y : Int) :
    (region_code w h st x y).2.num_capstones = st.num_capstones := by
  rcases region_code_snd_cases w h st x y with hc | ⟨_, hc⟩ <;> rw [hc]

/-- The region counter never decreases across a `region_code` call. -/
lemma region_code_num_mono (w h : Int) (st : QuircState) (x y : Int) :
    st.num_regions ≤ (region_code w h st x y).2.num_regions := by
  rcases region_code_snd_cases w h st x y with hc | ⟨_, hc⟩ <;> rw [hc] <;> simp

/-- The region counter grows by at most one across a `region_code` call. -/
lemma region_code_num_le (w h : Int) (st : QuircState) (x y : Int) :
    (region_code w h st x y).2.num_regions ≤ st.num_regions + 1 := by
  rcases region_code_snd_cases w h st x y with hc | ⟨_, hc⟩ <;> rw [hc] <;> simp

/-- The region counter stays at or below `QUIRC_MAX_REGIONS` across a
`region_code` call. -/
lemma region_code_num_le_cap (w h : Int) (st : QuircState) (x y : Int)
    (hc : st.num_regions ≤ QUIRC_MAX_REGIONS) :
    (region_code w h st x y).2.num_regions ≤ QUIRC_MAX_REGIONS := by
  rcases region_code_snd_cases w h st x y with h' | ⟨hlt, h'⟩ <;> rw [h']
  · exact hc
  · exact hlt

/-- Table entries strictly below the incoming counter are untouched by a
`region_code` call. -/
lemma region_code_regions_preserved (w h : Int) (st : QuircState) (x y : Int)
    (r : Int) (hr0 : 0 ≤ r) (hr : r < st.num_regions) :
    (region_code w h st x y).2.regions r.toNat = st.regions r.toNat := by
  rcases region_code_snd_cases w h st x y with hc | ⟨_, hc⟩ <;> rw [hc]
  have hne : r.toNat ≠ st.num_regions.toNat := by omega
  simp [Function.update_noteq hne]

/-- A region freshly allocated by a `region_code` call is recorded with seed
`(x, y)`, `count = 0` and `capstone = -1`. -/
lemma region_code_new_region (w h : Int) (st : QuircState) (x y : Int)
    (hr0 : 0 ≤ st.num_regions) (r : Int) (hge : st.num_regions ≤ r)
    (hlt : r < (region_code w h st x y).2.num_regions) :
    (region_code w h st x y).2.regions r.toNat = ⟨x, y, 0, -1⟩ := by
  rcases region_code_snd_cases w h st x y with hc | ⟨_, hc⟩
  · rw [hc] at hlt
    omega
  · rw [hc] at hlt ⊢
    have hlt' : r < st.num_regions + 1 := hlt
    have hr : r = st.num_regions := le_antisymm (by omega) hge
    subst hr
    exact Function.update_same _ _ _

/-! ### The window acceptance test of `finder_scan` -/

/-- A fold that clears a flag whenever the condition fires yields `true` iff
the flag started `true` and the condition fires nowhere. -/
lemma foldl_flagCheck {α : Type} (cond : α → Prop) [DecidablePred cond] :
    ∀ (l : List α) (acc : Bool),
      (l.foldl (fun ok i => if cond i then false else ok) acc = true) ↔
        (acc = true ∧ ∀ i ∈ l, ¬ cond i) := by
  intro l
  induction l with
  | nil => intro acc; simp
  | cons a l ih =>
      intro acc
      rw [List.foldl_cons, ih]
      by_cases h : cond a <;> simp [h, and_assoc]

/-- The tolerance `err = avg·3/4` never exceeds `check[i]·avg`, so the C
unsigned subtraction `check[i]*avg - err` never wraps around. -/
lemma windowErr_le_check_mul_avg (pb : Fin 5 → Nat) (i : Fin 5) :
    windowErr pb ≤ capstoneCheck i * windowAvg pb := by
  unfold windowErr
  fin_cases i <;> simp [capstoneCheck] <;> omega

/-- The `ok` flag of `finder_scan` is left set exactly when every window
position passes the `1:1:3:1:1` interval test. -/
lemma windowOkLoop_iff (pb : Fin 5 → Nat) :
    windowOkLoop pb = true ↔ windowAccepted pb := by
  unfold windowOkLoop windowAccepted
  rw [foldl_flagCheck
    (fun i => pb i * 16 < capstoneCheck i * windowAvg pb - windowErr pb ∨
      capstoneCheck i * windowAvg pb + windowErr pb < pb i * 16)]
  simp only [true_and]
  constructor
  · intro h i
    have hi := h i (List.mem_finRange i)
    rw [not_or, not_lt, not_lt] at hi
    exact hi
  · intro h i _
    rw [not_or, not_lt, not_lt]
    exact h i

/-! ### Cumulative-sum lemmas for the `otsu` loop -/

/-- Unfolding of the cumulative background count by one candidate. -/
lemma q1B_succ (image : List Nat) (n : Nat) :
    q1B image (n + 1) = q1B image n + hist image n := by
  unfold q1B
  rw [List.range_succ, List.map_append, List.sum_append]
  simp

/-- Unfolding of the cumulative weighted sum by one candidate. -/
lemma sB_succ (image : List Nat) (n : Nat) :
    sB image (n + 1) = sB image n + (n : ℚ) * (hist image n : ℚ) := by
  unfold sB
  rw [List.range_succ, List.map_append, List.sum_append]
  simp

/-- The cumulative background count is monotone in the candidate index. -/
lemma q1B_mono (image : List Nat) {m n : Nat} (h : m ≤ n) :
    q1B image m ≤ q1B image n := by
  induction n, h using Nat.le_induction with
  | base => exact le_refl _
  | succ n _ ih => rw [q1B_succ]; omega

/-- The between-class variance is a square times nonnegative weights. -/
lemma otsuVariance_nonneg (image : List Nat) (i : Nat) :
    0 ≤ otsuVariance image i := by
  unfold otsuVariance otsuVarExpr
  have h1 := mul_self_nonneg
    (sB image (i + 1) / (q1B image (i + 1) : ℚ) -
      (otsuSum image - sB image (i + 1)) / ((image.length - q1B image (i + 1) : Nat) : ℚ))
  positivity

/-- Unfolding of the `otsu` loop by one iteration. -/
lemma otsuStateAfter_succ (image : List Nat) (n : Nat) :
    otsuStateAfter image (n + 1) = otsuStep image (otsuStateAfter image n) n := by
  unfold otsuStateAfter
  rw [List.range_succ, List.foldl_append]
  rfl

/-- When candidate `n` is not valid, the tracked pair is simply carried over
to bound `n+1`. -/
lemma ThreshSpec_extend (image : List Nat) (n : Nat) (m : ℚ) (t : Nat)
    (hs : ThreshSpec image n m t) (hnv : ¬ otsuValid image n) :
    ThreshSpec image (n + 1) m t := by
  constructor
  · intro hall
    exact hs.1 (fun j hj => hall j (Nat.lt_succ_of_lt hj))
  · rintro ⟨j, hj, hv⟩
    have hj' : j < n := by
      rcases Nat.lt_succ_iff_lt_or_eq.mp hj with h | h
      · exact h
      · exact absurd hv (h ▸ hnv)
    obtain ⟨h1, h2, h3, h4, h5⟩ := hs.2 ⟨j, hj', hv⟩
    refine ⟨Nat.lt_succ_of_lt h1, h2, h3, ?_, ?_⟩
    · intro k hk hvk
      rcases Nat.lt_succ_iff_lt_or_eq.mp hk with h | h
      · exact h4 k h hvk
      · exact absurd hvk (h ▸ hnv)
    · intro k hk hvk htk
      rcases Nat.lt_succ_iff_lt_or_eq.mp hk with h | h
      · exact h5 k h hvk htk
      · exact absurd hvk (h ▸ hnv)

/-- When candidate `n` is valid and its variance reaches the tracked maximum
(ties included), the loop updates to `(variance n, n)`, which is the last
maximiser below `n+1`. -/
lemma ThreshSpec_update (image : List Nat) (n : Nat) (m : ℚ) (t : Nat)
    (hs : ThreshSpec image n m t) (hv : otsuValid image n)
    (hge : m ≤ otsuVariance image n) :
    ThreshSpec image (n + 1) (otsuVariance image n) n := by
  constructor
  · intro hall
    exact absurd hv (hall n (Nat.lt_succ_self n))
  · intro _
    refine ⟨Nat.lt_succ_self n, hv, rfl, ?_, ?_⟩
    · intro j hj hvj
      rcases Nat.lt_succ_iff_lt_or_eq.mp hj with h | h
      · by_cases hex : ∃ k, k < n ∧ otsuValid image k
        · exact le_trans ((hs.2 hex).2.2.2.1 j h hvj) hge
        · exact absurd ⟨j, h, hvj⟩ hex
      · exact h ▸ le_refl _
    · intro j hj hvj hnj
      omega

/-- When candidate `n` is valid but its variance is strictly below the
tracked maximum, the tracked pair is carried over and stays the last
maximiser below `n+1`. -/
lemma ThreshSpec_keep (image : List Nat) (n : Nat) (m : ℚ) (t : Nat)
    (hs : ThreshSpec image n m t) (hv : otsuValid image n)
    (hlt : otsuVariance image n < m) :
    ThreshSpec image (n + 1) m t := by
  have hex : ∃ k, k < n ∧ otsuValid image k := by
    by_contra hno
    push_neg at hno
    have h0 := (hs.1 hno).1
    rw [h0] at hlt
    exact absurd hlt (not_lt.mpr (otsuVariance_nonneg image n))
  obtain ⟨h1, h2, h3, h4, h5⟩ := hs.2 hex
  constructor
  · intro hall
    exact absurd hv (hall n (Nat.lt_succ_self n))
  · intro _
    refine ⟨Nat.lt_succ_of_lt h1, h2, h3, ?_, ?_⟩
    · intro j hj hvj
      rcases Nat.lt_succ_iff_lt_or_eq.mp hj with h | h
      · exact h4 j h hvj
      · exact h ▸ le_of_lt hlt
    · intro j hj hvj htj
      rcases Nat.lt_succ_iff_lt_or_eq.mp hj with h | h
      · exact h5 j h hvj htj
      · exact h ▸ hlt

/-- The full invariant of the `otsu` candidate loop: the `done` flag records
that the `q2 == 0` break has fired; while it has not, `q1` and the sum of the
three `sumB` cells hold the exact cumulative sums `q1B`/`sB`; and the tracked
`max`/`threshold` pair satisfies `ThreshSpec`. -/
lemma otsu_invariant (image : List Nat) (n : Nat) :
    ((otsuStateAfter image n).done = true ↔
      ∃ b, b < n ∧ 0 < q1B image (b + 1) ∧ image.length ≤ q1B image (b + 1)) ∧
    ((otsuStateAfter image n).done = false →
      (otsuStateAfter image n).q1 = q1B image n ∧
      (otsuStateAfter image n).sumB0 + (otsuStateAfter image n).sumB1 +
        (otsuStateAfter image n).sumB2 = sB image n) ∧
    ThreshSpec image n (otsuStateAfter image n).max
      (otsuStateAfter image n).threshold := by
  induction n with
  | zero =>
      refine ⟨by simp [otsuStateAfter, otsuInit], ?_, ?_⟩
      · intro _
        exact ⟨by simp [otsuStateAfter, otsuInit, q1B],
          by simp [otsuStateAfter, otsuInit, sB]⟩
      · exact ⟨fun _ => ⟨rfl, rfl⟩, fun ⟨j, hj, _⟩ => absurd hj (Nat.not_lt_zero j)⟩
  | succ n ih =>
      obtain ⟨ih1, ih2, ih3⟩ := ih
      rw [otsuStateAfter_succ]
      cases hdone : (otsuStateAfter image n).done with
      | true =>
          have hstep : otsuStep image (otsuStateAfter image n) n =
              otsuStateAfter image n := by
            unfold otsuStep
            rw [if_pos hdone]
          rw [hstep]
          obtain ⟨b, hbn, hbp, hbl⟩ := ih1.mp hdone
          have hnv : ¬ otsuValid image n := by
            rintro ⟨-, hlt⟩
            have hm : q1B image (b + 1) ≤ q1B image (n + 1) :=
              q1B_mono image (by omega)
            omega
          refine ⟨⟨fun _ => ⟨b, by omega, hbp, hbl⟩, fun _ => hdone⟩, ?_,
            ThreshSpec_extend image n _ _ ih3 hnv⟩
          intro hf
          rw [hdone] at hf
          exact Bool.noConfusion hf
      | false =>
          obtain ⟨hq1, hsum⟩ := ih2 hdone
          have hnd : ¬ ((otsuStateAfter image n).done = true) := by
            rw [hdone]; exact Bool.noConfusion
          have hnob : ∀ b, b < n →
              ¬ (0 < q1B image (b + 1) ∧ image.length ≤ q1B image (b + 1)) := by
            intro b hb hcontra
            have ht : (otsuStateAfter image n).done = true :=
              ih1.mpr ⟨b, hb, hcontra.1, hcontra.2⟩
            rw [hdone] at ht
            exact Bool.noConfusion ht
          have e1 : (otsuStateAfter image n).q1 + hist image n = q1B image (n + 1) := by
            rw [hq1, q1B_succ]
          by_cases hq0 : q1B image (n + 1) = 0
          · -- the `q1 == 0` continue of the loop body
            have hstep : otsuStep image (otsuStateAfter image n) n =
                { otsuStateAfter image n with q1 := q1B image (n + 1) } := by
              unfold otsuStep
              rw [if_neg hnd]
              dsimp only
              rw [e1, if_pos hq0]
            rw [hstep]
            have hnv : ¬ otsuValid image n := by
              rintro ⟨hp, -⟩
              omega
            refine ⟨?_, ?_, ThreshSpec_extend image n _ _ ih3 hnv⟩
            · constructor
              · intro hcontra
                have hft : (otsuStateAfter image n).done = true := hcontra
                rw [hdone] at hft
                exact Bool.noConfusion hft
              · rintro ⟨b, hb, hp, hl⟩
                rcases Nat.lt_succ_iff_lt_or_eq.mp hb with h | h
                · exact absurd ⟨hp, hl⟩ (hnob b h)
                · subst h
                  omega
            · intro _
              refine ⟨rfl, ?_⟩
              have h0 : hist image n = 0 := by
                have hss := q1B_succ image n
                omega
              rw [sB_succ, h0]
              push_cast
              rw [mul_zero, add_zero]
              exact hsum
          · by_cases hbr : image.length ≤ q1B image (n + 1)
            · -- the `q2 == 0` break of the loop body
              have hstep : otsuStep image (otsuStateAfter image n) n =
                  { otsuStateAfter image n with
                    q1 := q1B image (n + 1), done := true } := by
                unfold otsuStep
                rw [if_neg hnd]
                dsimp only
                rw [e1, if_neg hq0, if_pos (Nat.sub_eq_zero_of_le hbr)]
              rw [hstep]
              have hnv : ¬ otsuValid image n := by
                rintro ⟨-, hlt⟩
                omega
              refine ⟨⟨fun _ => ⟨n, Nat.lt_succ_self n, Nat.pos_of_ne_zero hq0, hbr⟩,
                  fun _ => rfl⟩, ?_, ThreshSpec_extend image n _ _ ih3 hnv⟩
              intro hf
              exact Bool.noConfusion hf
            · -- the executed loop body
              have hvn : otsuValid image n :=
                ⟨Nat.pos_of_ne_zero hq0, lt_of_not_le hbr⟩
              have hrun : (otsuStateAfter image n).sumB1 + (otsuStateAfter image n).sumB2 +
                  ((otsuStateAfter image n).sumB0 + (n : ℚ) * (hist image n : ℚ)) =
                  sB image (n + 1) := by
                rw [sB_succ]
                linarith [hsum]
              have hstep : otsuStep image (otsuStateAfter image n) n =
                  (if (otsuStateAfter image n).max ≤ otsuVariance image n then
                    (⟨(otsuStateAfter image n).sumB1, (otsuStateAfter image n).sumB2,
                      (otsuStateAfter image n).sumB0 + (n : ℚ) * (hist image n : ℚ),
                      q1B image (n + 1), otsuVariance image n, n, false⟩ : OtsuState)
                  else
                    ⟨(otsuStateAfter image n).sumB1, (otsuStateAfter image n).sumB2,
                      (otsuStateAfter image n).sumB0 + (n : ℚ) * (hist image n : ℚ),
                      q1B image (n + 1), (otsuStateAfter image n).max,
                      (otsuStateAfter image n).threshold, false⟩) := by
                unfold otsuStep
                rw [if_neg hnd]
                dsimp only
                rw [e1, if_neg hq0, if_neg (Nat.sub_ne_zero_of_lt (lt_of_not_le hbr)),
                  hrun]
                rfl
              rw [hstep]
              by_cases hmax : (otsuStateAfter image n).max ≤ otsuVariance image n
              · rw [if_pos hmax]
                refine ⟨?_, ?_, ThreshSpec_update image n _ _ ih3 hvn hmax⟩
                · constructor
                  · intro hcontra
                    exact Bool.noConfusion hcontra
                  · rintro ⟨b, hb, hp, hl⟩
                    rcases Nat.lt_succ_iff_lt_or_eq.mp hb with h | h
                    · exact absurd ⟨hp, hl⟩ (hnob b h)
                    · subst h
                      exact absurd hl (not_le.mpr hvn.2)
                · intro _
                  exact ⟨rfl, hrun⟩
              · rw [if_neg hmax]
                refine ⟨?_, ?_,
                  ThreshSpec_keep image n _ _ ih3 hvn (lt_of_not_le hmax)⟩
                · constructor
                  · intro hcontra
                    exact Bool.noConfusion hcontra
                  · rintro ⟨b, hb, hp, hl⟩
                    rcases Nat.lt_succ_iff_lt_or_eq.mp hb with h | h
                    · exact absurd ⟨hp, hl⟩ (hnob b h)
                    · subst h
                      exact absurd hl (not_le.mpr hvn.2)
                · intro _
                  exact ⟨rfl, hrun⟩

/-! ### Iterated allocation up to the region cap -/

/-- Along the iterated-allocation chain the pixel grid never changes and the
counter advances by exactly one per call. -/
lemma allocCapState_spec : ∀ k, k ≤ 254 →
    (allocCapState k).pixels = blackState.pixels ∧
    (allocCapState k).num_regions = (k : Int) := by
  intro k
  induction k with
  | zero => intro _; exact ⟨rfl, rfl⟩
  | succ k ih =>
      intro hk
      obtain ⟨hp, hn⟩ := ih (by omega)
      have hin : ¬((k : Int) < 0 ∨ (0 : Int) < 0 ∨ (255 : Int) ≤ (k : Int) ∨
          (1 : Int) ≤ (0 : Int)) := by
        push_neg
        refine ⟨by positivity, by omega, by omega, by omega⟩
      have hpix : (allocCapState k).pixels (((0 : Int) * 255 + (k : Int)).toNat) =
          QUIRC_PIXEL_BLACK := by
        rw [hp]
        rfl
      have hcap : (allocCapState k).num_regions < QUIRC_MAX_REGIONS := by
        show (allocCapState k).num_regions < 254
        rw [hn]
        omega
      have hstep := region_code_alloc_eq (allocCapState k) hin hpix hcap
      constructor
      · show ((region_code 255 1 (allocCapState k) (k : Int) 0).2).pixels =
          blackState.pixels
        rw [hstep]
        exact hp
      · show ((region_code 255 1 (allocCapState k) (k : Int) 0).2).num_regions =
          ((k + 1 : Nat) : Int)
        rw [hstep]
        show (allocCapState k).num_regions + 1 = ((k + 1 : Nat) : Int)
        rw [hn]
        push_cast
        ring

/-- Below the cap, the attempt at column `k` of the all-BLACK grid allocates
region id `k`. -/
lemma allocCapState_alloc (k : Nat) (hk : k < 254) :
    region_code 255 1 (allocCapState k) (k : Int) 0 =
      ((k : Int), allocCapState (k + 1)) := by
  obtain ⟨hp, hn⟩ := allocCapState_spec k (by omega)
  have hin : ¬((k : Int) < 0 ∨ (0 : Int) < 0 ∨ (255 : Int) ≤ (k : Int) ∨
      (1 : Int) ≤ (0 : Int)) := by
    push_neg
    refine ⟨by positivity, by omega, by omega, by omega⟩
  have hpix : (allocCapState k).pixels (((0 : Int) * 255 + (k : Int)).toNat) =
      QUIRC_PIXEL_BLACK := by
    rw [hp]
    rfl
  have hcap : (allocCapState k).num_regions < QUIRC_MAX_REGIONS := by
    show (allocCapState k).num_regions < 254
    rw [hn]
    omega
  have hstep := region_code_alloc_eq (allocCapState k) hin hpix hcap
  have h2 : allocCapState (k + 1) =
      (region_code 255 1 (allocCapState k) (k : Int) 0).2 := rfl
  rw [h2, hstep, hn]

/-- Unfolding of `test_capstone` into its three `region_code` calls. -/
lemma test_capstone_eq (w h : Int) (st : QuircState) (x y : Int)
    (pb : Fin 5 → Nat) :
    test_capstone w h st x y pb =
      (region_code w h
        (region_code w h
          (region_code w h st (x - (pb 4 : Int)) y).2
          (x - (pb 4 : Int) - (pb 3 : Int) - (pb 2 : Int)) y).2
        (x - (pb 4 : Int) - (pb 3 : Int) - (pb 2 : Int) - (pb 1 : Int) -
          (pb 0 : Int)) y).2 := rfl

/-! ### Claim theorems -/

/-- C1: for every image, threshold, and pixel index `p`, the Binarizer output
satisfies `output[p] = BLACK (1)` when `image[p] < threshold` and
`output[p] = WHITE (0)` otherwise; and re-running the (pure) function on the
same inputs yields an identical output grid. -/
theorem C1_pixels_setup_binarizes (image : List Nat) (threshold : Nat)
    (p v : Nat) (hv : image[p]? = some v) :
    (pixels_setup image threshold)[p]? =
      some (if v < threshold then QUIRC_PIXEL_BLACK else QUIRC_PIXEL_WHITE) ∧
    pixels_setup image threshold = pixels_setup image threshold := by
  refine ⟨?_, rfl⟩
  unfold pixels_setup
  rw [List.getElem?_map, hv]
  rfl

/-- Witness for C1 at the concrete image `[3, 9]` with threshold `5`. -/
theorem C1_witness :
    (pixels_setup [3, 9] 5)[0]? =
      some (if 3 < 5 then QUIRC_PIXEL_BLACK else QUIRC_PIXEL_WHITE) ∧
    pixels_setup [3, 9] 5 = pixels_setup [3, 9] 5 :=
  C1_pixels_setup_binarizes [3, 9] 5 0 3 (by decide)

/-- C2: the non-allocating cases of the Region Resolver: out-of-bounds
coordinates yield `-1`; a pixel already labelled (value ≥ 2) is returned
unchanged, and resolving it again returns the identical id; a WHITE pixel
yields `-1`; a BLACK pixel with the region table at capacity yields `-1` —
and in every one of these cases the pixel grid, region table and region
counter are left completely unchanged. -/
theorem C2_region_code_none_cases (w h : Int) (st : QuircState) (x y : Int) :
    ((x < 0 ∨ y < 0 ∨ w ≤ x ∨ h ≤ y) → region_code w h st x y = (-1, st)) ∧
    (¬(x < 0 ∨ y < 0 ∨ w ≤ x ∨ h ≤ y) →
      (QUIRC_PIXEL_REGION ≤ st.pixels (y * w + x).toNat →
        region_code w h st x y = ((st.pixels (y * w + x).toNat : Int), st) ∧
        region_code w h (region_code w h st x y).2 x y =
          region_code w h st x y) ∧
      (st.pixels (y * w + x).toNat = QUIRC_PIXEL_WHITE →
        region_code w h st x y = (-1, st)) ∧
      (st.pixels (y * w + x).toNat = QUIRC_PIXEL_BLACK →
        QUIRC_MAX_REGIONS ≤ st.num_regions →
        region_code w h st x y = (-1, st))) := by
  refine ⟨fun hoob => region_code_oob st hoob,
    fun hin => ⟨fun hreg => ?_, fun hw => region_code_white st hin hw,
      fun hb hfull => region_code_full st hin hb hfull⟩⟩
  have h1 := region_code_labeled st hin hreg
  refine ⟨h1, ?_⟩
  rw [h1]
  exact h1

/-- Witness for C2 on the concrete 3×1 grid `mixedState` (WHITE at column 0,
BLACK at column 1 with the counter at capacity, label 5 at column 2), and an
out-of-bounds query. -/
theorem C2_witness :
    region_code 3 1 mixedState (-1) 0 = (-1, mixedState) ∧
    (region_code 3 1 mixedState 2 0 =
      ((mixedState.pixels ((0 * 3 + 2 : Int)).toNat : Int), mixedState) ∧
      region_code 3 1 (region_code 3 1 mixedState 2 0).2 2 0 =
        region_code 3 1 mixedState 2 0) ∧
    region_code 3 1 mixedState 0 0 = (-1, mixedState) ∧
    region_code 3 1 mixedState 1 0 = (-1, mixedState) :=
  ⟨(C2_region_code_none_cases 3 1 mixedState (-1) 0).1 (by decide),
   ((C2_region_code_none_cases 3 1 mixedState 2 0).2 (by decide)).1 (by decide),
   ((C2_region_code_none_cases 3 1 mixedState 0 0).2 (by decide)).2.1 (by decide),
   ((C2_region_code_none_cases 3 1 mixedState 1 0).2 (by decide)).2.2 (by decide)
     (by decide)⟩

/-- C3: for an in-bounds BLACK (unlabeled) pixel with the region counter
below capacity, the Region Resolver returns the current counter value as the
new id, increments the counter by one, and records the new region with seed
`(x, y)`, count `0` and capstone back-reference `-1`. -/
theorem C3_region_code_alloc (w h : Int) (st : QuircState) (x y : Int)
    (hin : ¬(x < 0 ∨ y < 0 ∨ w ≤ x ∨ h ≤ y))
    (hb : st.pixels (y * w + x).toNat = QUIRC_PIXEL_BLACK)
    (hcap : st.num_regions < QUIRC_MAX_REGIONS) :
    region_code w h st x y =
      (st.num_regions,
        { st with
          num_regions := st.num_regions + 1,
          regions := Function.update st.regions st.num_regions.toNat
            ⟨x, y, 0, -1⟩ }) :=
  region_code_alloc_eq st hin hb hcap

/-- Witness for C3 on the concrete all-BLACK 1×1 grid `blackState`. -/
theorem C3_witness :
    region_code 1 1 blackState 0 0 =
      (0,
        { blackState with
          num_regions := 1,
          regions := Function.update blackState.regions 0 ⟨0, 0, 0, -1⟩ }) :=
  C3_region_code_alloc 1 1 blackState 0 0 (by decide) (by decide) (by decide)

/-- Counterexample for C7: on the all-BLACK 1×1 grid, `region_code` does
allocate region id `0` (the counter moves to `1`), yet the seed pixel still
holds `QUIRC_PIXEL_BLACK` — it is *not* relabelled with the new region id. -/
theorem C7_cex :
    (region_code 1 1 blackState 0 0).1 = 0 ∧
    (region_code 1 1 blackState 0 0).2.num_regions = 1 ∧
    (region_code 1 1 blackState 0 0).2.pixels ((0 * 1 + 0 : Int)).toNat =
      QUIRC_PIXEL_BLACK ∧
    QUIRC_PIXEL_BLACK ≠ ((region_code 1 1 blackState 0 0).1).toNat := by
  decide

/-- C7 (amended): the Region Resolver never modifies the pixel grid at all —
neither the seed pixel nor any other entry is relabelled (the
`flood_fill_seed` call is commented out in the source), so after an
allocation the seed pixel still holds `QUIRC_PIXEL_BLACK`. -/
theorem C7_region_code_pixels_unchanged (w h : Int) (st : QuircState)
    (x y : Int) :
    (region_code w h st x y).2.pixels = st.pixels :=
  region_code_pixels w h st x y

/-- C9: the 254-region cap: the region counter never exceeds
`QUIRC_MAX_REGIONS = 254` across any call; starting from an empty table on an
all-BLACK grid each of the first 254 allocation attempts succeeds with the
next sequential id; after them the counter sits exactly at 254; and the 255th
attempt returns `-1` with the state completely unchanged. -/
theorem C9_region_cap :
    (∀ (w h : Int) (st : QuircState) (x y : Int),
      st.num_regions ≤ QUIRC_MAX_REGIONS →
      (region_code w h st x y).2.num_regions ≤ QUIRC_MAX_REGIONS) ∧
    (∀ k, k < 254 →
      region_code 255 1 (allocCapState k) (k : Int) 0 =
        ((k : Int), allocCapState (k + 1))) ∧
    (allocCapState 254).num_regions = QUIRC_MAX_REGIONS ∧
    region_code 255 1 (allocCapState 254) (254 : Int) 0 =
      (-1, allocCapState 254) := by
  refine ⟨fun w h st x y hc => region_code_num_le_cap w h st x y hc,
    fun k hk => allocCapState_alloc k hk,
    (allocCapState_spec 254 (le_refl _)).2, ?_⟩
  obtain ⟨hp, hn⟩ := allocCapState_spec 254 (le_refl _)
  apply region_code_full
  · decide
  · rw [hp]
    rfl
  · rw [hn]
    exact le_refl _

/-- Witness for C9: the cap invariant at a concrete call, and the very first
allocation of the chain. -/
theorem C9_witness :
    (region_code 255 1 blackState 0 0).2.num_regions ≤ QUIRC_MAX_REGIONS ∧
    region_code 255 1 (allocCapState 0) ((0 : Nat) : Int) 0 =
      (((0 : Nat) : Int), allocCapState 1) :=
  ⟨C9_region_cap.1 255 1 blackState 0 0 (by decide),
   C9_region_cap.2.1 0 (by decide)⟩

/-- C10: `test_capstone` never records a capstone (the capstone counter is
untouched — the whole recording block is commented out in the source), never
modifies the pixel grid, and its only state effect is that resolving the
three probe points may allocate at most three new regions, each recorded
with `count = 0` and `capstone = -1`, while every pre-existing region-table
entry is left unchanged. -/
theorem C10_test_capstone_frame (w h : Int) (st : QuircState) (x y : Int)
    (pb : Fin 5 → Nat) (hnr : 0 ≤ st.num_regions) :
    (test_capstone w h st x y pb).pixels = st.pixels ∧
    (test_capstone w h st x y pb).num_capstones = st.num_capstones ∧
    st.num_regions ≤ (test_capstone w h st x y pb).num_regions ∧
    (test_capstone w h st x y pb).num_regions ≤ st.num_regions + 3 ∧
    (∀ r : Int, 0 ≤ r → r < st.num_regions →
      (test_capstone w h st x y pb).regions r.toNat = st.regions r.toNat) ∧
    (∀ r : Int, st.num_regions ≤ r →
      r < (test_capstone w h st x y pb).num_regions →
      ((test_capstone w h st x y pb).regions r.toNat).count = 0 ∧
      ((test_capstone w h st x y pb).regions r.toNat).capstone = -1) := by
  rw [test_capstone_eq]
  set x1 := x - (pb 4 : Int) with hx1
  set x2 := x - (pb 4 : Int) - (pb 3 : Int) - (pb 2 : Int) with hx2
  set x3 := x - (pb 4 : Int) - (pb 3 : Int) - (pb 2 : Int) - (pb 1 : Int) -
    (pb 0 : Int) with hx3
  set s1 := (region_code w h st x1 y).2 with hs1
  set s2 := (region_code w h s1 x2 y).2 with hs2
  have hm1 := region_code_num_mono w h st x1 y
  have hm2 := region_code_num_mono w h s1 x2 y
  have hm3 := region_code_num_mono w h s2 x3 y
  have hl1 := region_code_num_le w h st x1 y
  have hl2 := region_code_num_le w h s1 x2 y
  have hl3 := region_code_num_le w h s2 x3 y
  rw [← hs1] at hm1 hl1
  rw [← hs2] at hm2 hl2
  have hn1 : 0 ≤ s1.num_regions := le_trans hnr hm1
  have hn2 : 0 ≤ s2.num_regions := le_trans hn1 hm2
  refine ⟨?_, ?_, le_trans hm1 (le_trans hm2 hm3), by omega, ?_, ?_⟩
  · rw [region_code_pixels, region_code_pixels, region_code_pixels]
  · rw [region_code_num_capstones, region_code_num_capstones,
      region_code_num_capstones]
  · intro r hr0 hr
    rw [region_code_regions_preserved w h s2 x3 y r hr0
        (lt_of_lt_of_le (lt_of_lt_of_le hr hm1) hm2),
      region_code_regions_preserved w h s1 x2 y r hr0 (lt_of_lt_of_le hr hm1),
      region_code_regions_preserved w h st x1 y r hr0 hr]
  · intro r hge hlt
    have hr0 : 0 ≤ r := le_trans hnr hge
    by_cases h1 : r < s1.num_regions
    · have hnew := region_code_new_region w h st x1 y hnr r hge h1
      rw [region_code_regions_preserved w h s2 x3 y r hr0 (lt_of_lt_of_le h1 hm2),
        region_code_regions_preserved w h s1 x2 y r hr0 h1, hnew]
      exact ⟨rfl, rfl⟩
    · by_cases h2 : r < s2.num_regions
      · have hnew := region_code_new_region w h s1 x2 y hn1 r (not_lt.mp h1) h2
        rw [region_code_regions_preserved w h s2 x3 y r hr0 h2]
        rw [← hs2] at hnew
        rw [hnew]
        exact ⟨rfl, rfl⟩
      · have hnew := region_code_new_region w h s2 x3 y hn2 r (not_lt.mp h2) hlt
        rw [hnew]
        exact ⟨rfl, rfl⟩

/-- Witness for C10 at a concrete state and window: the all-BLACK 1×1 grid
with the zero window. -/
theorem C10_witness :
    (test_capstone 1 1 blackState 0 0 (fun _ => 0)).pixels =
      blackState.pixels ∧
    (test_capstone 1 1 blackState 0 0 (fun _ => 0)).num_capstones =
      blackState.num_capstones ∧
    blackState.num_regions ≤
      (test_capstone 1 1 blackState 0 0 (fun _ => 0)).num_regions ∧
    (test_capstone 1 1 blackState 0 0 (fun _ => 0)).num_regions ≤
      blackState.num_regions + 3 ∧
    (∀ r : Int, 0 ≤ r → r < blackState.num_regions →
      (test_capstone 1 1 blackState 0 0 (fun _ => 0)).regions r.toNat =
        blackState.regions r.toNat) ∧
    (∀ r : Int, blackState.num_regions ≤ r →
      r < (test_capstone 1 1 blackState 0 0 (fun _ => 0)).num_regions →
      ((test_capstone 1 1 blackState 0 0 (fun _ => 0)).regions r.toNat).count = 0 ∧
      ((test_capstone 1 1 blackState 0 0 (fun _ => 0)).regions r.toNat).capstone =
        -1) :=
  C10_test_capstone_frame 1 1 blackState 0 0 (fun _ => 0) (by decide)

/-- C4: at a colour transition whose new colour is WHITE with at least five
runs observed, the shifted window `pb` is accepted — and `test_capstone` is
invoked at the current column `x` with that window — exactly when, for
`avg = (pb[0]+pb[1]+pb[3]+pb[4])·16/4` (index 2 excluded) and
`err = avg·3/4`, every position `i` satisfies
`check[i]·avg − err ≤ pb[i]·16 ≤ check[i]·avg + err` with
`check = {1,1,3,1,1}`. -/
theorem C4_window_rule (w h y x : Nat) (s : ScanState) (hx : x ≠ 0)
    (hw : s.st.pixels (y * w + x) = 0) (hlast : s.last_color ≠ 0)
    (hrc : 4 ≤ s.run_count) :
    ((finderStep w h y s x).st =
      if windowAccepted (pbShift s.pb s.run_length) then
        test_capstone (w : Int) (h : Int) s.st (x : Int) (y : Int)
          (pbShift s.pb s.run_length)
      else s.st) ∧
    ((finderStep w h y s x).events =
      s.events ++
        if windowAccepted (pbShift s.pb s.run_length) then
          [(x, [pbShift s.pb s.run_length 0, pbShift s.pb s.run_length 1,
            pbShift s.pb s.run_length 2, pbShift s.pb s.run_length 3,
            pbShift s.pb s.run_length 4])]
        else []) := by
  unfold finderStep
  dsimp only
  rw [if_pos hw, if_pos ⟨hx, Ne.symm hlast⟩]
  by_cases hacc : windowAccepted (pbShift s.pb s.run_length)
  · rw [if_pos ⟨rfl, by omega, (windowOkLoop_iff _).mpr hacc⟩, if_pos hacc,
      if_pos hacc]
    exact ⟨rfl, rfl⟩
  · rw [if_neg (fun hcond => hacc ((windowOkLoop_iff _).mp hcond.2.2)),
      if_neg hacc, if_neg hacc]
    exact ⟨rfl, by rw [List.append_nil]⟩

/-- Witness for C4 at the concrete mid-scan state `scanCand` (window about to
become `[10,10,30,10,10]`) at column 80 of a 90×1 grid. -/
theorem C4_witness :
    ((finderStep 90 1 0 scanCand 80).st =
      if windowAccepted (pbShift scanCand.pb scanCand.run_length) then
        test_capstone ((90 : Nat) : Int) ((1 : Nat) : Int) scanCand.st
          ((80 : Nat) : Int) ((0 : Nat) : Int)
          (pbShift scanCand.pb scanCand.run_length)
      else scanCand.st) ∧
    ((finderStep 90 1 0 scanCand 80).events =
      scanCand.events ++
        if windowAccepted (pbShift scanCand.pb scanCand.run_length) then
          [(80, [pbShift scanCand.pb scanCand.run_length 0,
            pbShift scanCand.pb scanCand.run_length 1,
            pbShift scanCand.pb scanCand.run_length 2,
            pbShift scanCand.pb scanCand.run_length 3,
            pbShift scanCand.pb scanCand.run_length 4])]
        else []) :=
  C4_window_rule 90 1 0 80 scanCand (by decide) (by decide) (by decide)
    (by decide)

set_option maxRecDepth 100000 in
set_option maxHeartbeats 1000000 in
/-- C8: scanning the synthetic 90-pixel row with run lengths
`10,10,10,30,10,10,10` (first run WHITE, colours alternating) invokes the
capstone test exactly once, at the transition column `x = 80` where the final
WHITE run begins, with window `[10,10,30,10,10]` — and at no other column. -/
theorem C8_synthetic_row :
    (finder_scan 90 1 c8State 0).events = [(80, [10, 10, 30, 10, 10])] := by
  decide

/-- On the two-pixel image `[0, 2]` only the candidates 0 and 1 are valid:
from candidate 2 on, the cumulative background count equals the pixel
count. -/
lemma valid02_lt_two : ∀ j, otsuValid [0, 2] j → j < 2 := by
  intro j hv
  by_contra hge
  push_neg at hge
  have hm : q1B [0, 2] 3 ≤ q1B [0, 2] (j + 1) := q1B_mono [0, 2] (by omega)
  have h3 : q1B [0, 2] 3 = 2 := by decide
  have h2 := hv.2
  have hlen : [0, 2].length = 2 := rfl
  rw [hlen] at h2
  omega

/-- On the image `[0, 2]` the candidates 0 and 1 have identical cumulative
sums (bin 1 is empty), hence identical between-class variances. -/
lemma var02_eq : otsuVariance [0, 2] 0 = otsuVariance [0, 2] 1 := by
  have hsb : sB [0, 2] (1 + 1) = sB [0, 2] (0 + 1) := by
    rw [sB_succ]
    norm_num [show hist [0, 2] 1 = 0 from by decide]
  have hq : q1B [0, 2] (1 + 1) = q1B [0, 2] (0 + 1) := by decide
  unfold otsuVariance
  rw [hsb, hq]

/-- Counterexample for C5: for the image `[0, 2]` both candidates 0 and 1 are
valid and attain the same (maximal) between-class variance, yet `otsu` does
*not* return the first/lowest such candidate 0 — the `variance >= max`
comparison updates the threshold on ties.  (All quantities involved are small
integers, exactly representable in the C `float` computation.) -/
theorem C5_cex :
    otsuValid [0, 2] 0 ∧ otsuValid [0, 2] 1 ∧
    otsuVariance [0, 2] 0 = otsuVariance [0, 2] 1 ∧
    (∀ j, j < 256 → otsuValid [0, 2] j →
      otsuVariance [0, 2] j ≤ otsuVariance [0, 2] 0) ∧
    otsu [0, 2] ≠ 0 := by
  have hv0 : otsuValid [0, 2] 0 := by decide
  have hv1 : otsuValid [0, 2] 1 := by decide
  have hmax : ∀ j, j < 256 → otsuValid [0, 2] j →
      otsuVariance [0, 2] j ≤ otsuVariance [0, 2] 0 := by
    intro j _ hv
    have hj2 := valid02_lt_two j hv
    interval_cases j
    · exact le_refl _
    · exact le_of_eq var02_eq.symm
  refine ⟨hv0, hv1, var02_eq, hmax, ?_⟩
  intro h0
  obtain ⟨-, -, hspec⟩ := otsu_invariant [0, 2] 256
  obtain ⟨-, -, htvar, -, hstrict⟩ := hspec.2 ⟨0, by omega, hv0⟩
  have ht0 : (otsuStateAfter [0, 2] 256).threshold = 0 := h0
  have hs := hstrict 1 (by omega) hv1 (by rw [ht0]; omega)
  rw [ht0] at htvar
  rw [← htvar, var02_eq] at hs
  exact lt_irrefl _ hs

/-- C5 (amended): the tracked maximum and threshold are updated on *every*
non-strict improvement (`variance >= max`), so among candidates attaining the
maximal variance the Thresholder returns the *last/highest* one: if `i` is a
valid candidate whose variance bounds every valid candidate and strictly
exceeds every valid candidate after `i`, then `otsu` returns `i`. -/
theorem C5_otsu_ties_take_last (image : List Nat) (i : Nat) (h256 : i < 256)
    (hvalid : otsuValid image i)
    (hmax : ∀ j, j < 256 → otsuValid image j →
      otsuVariance image j ≤ otsuVariance image i)
    (hlast : ∀ j, j < 256 → otsuValid image j → i < j →
      otsuVariance image j < otsuVariance image i) :
    otsu image = i := by
  obtain ⟨-, -, hspec⟩ := otsu_invariant image 256
  obtain ⟨ht256, htv, htvar, hub, hstrict⟩ := hspec.2 ⟨i, h256, hvalid⟩
  have ht256' : otsu image < 256 := ht256
  have htv' : otsuValid image (otsu image) := htv
  have htvar' : otsuVariance image (otsu image) = (otsuStateAfter image 256).max :=
    htvar
  by_contra hne
  have hti : otsuVariance image (otsu image) ≤ otsuVariance image i :=
    hmax _ ht256' htv'
  have hit : otsuVariance image i ≤ (otsuStateAfter image 256).max :=
    hub i h256 hvalid
  rcases lt_trichotomy (otsu image) i with hlt | heq | hgt
  · have hs : otsuVariance image i < (otsuStateAfter image 256).max :=
      hstrict i h256 hvalid hlt
    rw [← htvar'] at hs
    exact absurd (lt_of_lt_of_le hs hti) (lt_irrefl _)
  · exact hne heq
  · have h1 := hlast (otsu image) ht256' htv' hgt
    have h2 : otsuVariance image i ≤ otsuVariance image (otsu image) := by
      rw [htvar']
      exact hit
    exact absurd (lt_of_lt_of_le h1 h2) (lt_irrefl _)

/-- Witness for C5 (amended): on the image `[0, 2]` the last maximiser is
candidate 1 and `otsu` returns it. -/
theorem C5_witness : otsu [0, 2] = 1 := by
  apply C5_otsu_ties_take_last [0, 2] 1 (by omega) (by decide)
  · intro j _ hv
    have hj2 := valid02_lt_two j hv
    interval_cases j
    · exact le_of_eq var02_eq
    · exact le_refl _
  · intro j _ hv hgt
    have hj2 := valid02_lt_two j hv
    omega

/-- Counterexample for C6: for the image `[0, 1, 2, 3, 5]` candidate 3 is
valid, and the running foreground weighted sum held by the 3-element `sumB`
sliding accumulator after iteration 3 equals the cumulative weighted sum
`Σ_{j≤3} j·hist[j]` *exactly* — there is no 1-step lag. -/
theorem C6_cex :
    otsuValid [0, 1, 2, 3, 5] 3 ∧
    (otsuStateAfter [0, 1, 2, 3, 5] 4).sumB0 +
      (otsuStateAfter [0, 1, 2, 3, 5] 4).sumB1 +
      (otsuStateAfter [0, 1, 2, 3, 5] 4).sumB2 = sB [0, 1, 2, 3, 5] 4 := by
  obtain ⟨inv1, inv2, -⟩ := otsu_invariant [0, 1, 2, 3, 5] 4
  have hdone : (otsuStateAfter [0, 1, 2, 3, 5] 4).done = false := by
    cases hd : (otsuStateAfter [0, 1, 2, 3, 5] 4).done with
    | false => rfl
    | true =>
        obtain ⟨b, hb, hp, hl⟩ := inv1.mp hd
        have hm : q1B [0, 1, 2, 3, 5] (b + 1) ≤ q1B [0, 1, 2, 3, 5] 4 :=
          q1B_mono [0, 1, 2, 3, 5] (by omega)
        have h4 : q1B [0, 1, 2, 3, 5] 4 = 4 := by decide
        have hlen : [0, 1, 2, 3, 5].length = 5 := rfl
        rw [hlen] at hl
        omega
  exact ⟨by decide, (inv2 hdone).2⟩

/-- C6 (amended): the 3-element `sumB` sliding accumulator is an exact
pipelined representation of the cumulative weighted sum: at every valid
candidate `i` the running foreground weighted sum (the numerator of the
class mean `m1`) equals `Σ_{j≤i} j·histogram[j]`, the generic Otsu running
sum — there is no 1-step lag. -/
theorem C6_no_lag (image : List Nat) (i : Nat) (hv : otsuValid image i) :
    (otsuStateAfter image (i + 1)).sumB0 + (otsuStateAfter image (i + 1)).sumB1 +
      (otsuStateAfter image (i + 1)).sumB2 = sB image (i + 1) := by
  obtain ⟨inv1, inv2, -⟩ := otsu_invariant image (i + 1)
  have hdone : (otsuStateAfter image (i + 1)).done = false := by
    cases hd : (otsuStateAfter image (i + 1)).done with
    | false => rfl
    | true =>
        obtain ⟨b, hb, hp, hl⟩ := inv1.mp hd
        have hm := q1B_mono image (show b + 1 ≤ i + 1 by omega)
        have h2 := hv.2
        omega
  exact (inv2 hdone).2

/-- Witness for C6 (amended) at the image `[0, 1, 2, 3, 5]`, candidate 3. -/
theorem C6_witness :
    (otsuStateAfter [0, 1, 2, 3, 5] 4).sumB0 +
      (otsuStateAfter [0, 1, 2, 3, 5] 4).sumB1 +
      (otsuStateAfter [0, 1, 2, 3, 5] 4).sumB2 = sB [0, 1, 2, 3, 5] 4 :=
  C6_no_lag [0, 1, 2, 3, 5] 3 (by decide)

end Quirc
